import Mathlib

/-!
Verification of the `fixme-fail` pre-commit hook (`src/fixme_fail/main.py`).

The script is a thin orchestration layer: it shells out to git to read the
current symbolic branch reference, and (on a protected branch) shells out
again to `git diff --cached | grep -iE "\+.*?FIXME" || true` and blocks the
commit when the filtered output is non-empty.  We embed the script shallowly:

* the two subprocess invocations are modelled by passing their observed
  outcomes (exit status and captured output, or a raised `CalledProcessError`)
  as explicit inputs;
* Python strings are Lean `String`s, with the handful of string operations
  the script uses (strip, rstrip, split on a slash, join with a slash)
  re-implemented structurally on `List Char`;
* the grep filter `grep -iE "\+.*?FIXME"` is modelled line by line: a line
  matches iff it contains a literal `+` followed, later on the same line, by
  the text `FIXME` compared case-insensitively (GNU grep treats the
  double repetition `.*?` in an ERE as `.*`).
-/

/-- Case-insensitive character comparison, as performed by `grep -i`. -/
def eqIgnoreCase (a b : Char) : Bool :=
  a.toLower == b.toLower

/-- Case-insensitive prefix test: the pattern is a prefix of the text. -/
def isPrefixCI : List Char → List Char → Bool
  | [], _ => true
  | _ :: _, [] => false
  | p :: ps, c :: cs => eqIgnoreCase p c && isPrefixCI ps cs

/-- Case-insensitive substring test: the pattern occurs somewhere in the text. -/
def containsCI (pat : List Char) : List Char → Bool
  | [] => isPrefixCI pat []
  | c :: cs => isPrefixCI pat (c :: cs) || containsCI pat cs

/-- The marker searched for by the hook, lowered: `FIXME` under `grep -i`. -/
def fixmePat : List Char := "fixme".data

/-- Semantics of the ERE `\+.*?FIXME` under `grep -iE`: the line contains a
literal `+` followed (later on the same line) by a case-insensitive
occurrence of `FIXME`.  GNU grep reads `.*?` in an ERE as `.*`. -/
def grepAfterPlus : List Char → Bool
  | [] => false
  | c :: cs => (c == '+' && containsCI fixmePat cs) || grepAfterPlus cs

/-- Whether a single diff line is kept by `grep -iE "\+.*?FIXME"`. -/
def grepMatchLine (line : String) : Bool :=
  grepAfterPlus line.data

/-- An added line of the diff that contains the marker: the line starts with
`+` and contains `FIXME` case-insensitively.  (This is the notion the spec
talks about; the grep in the source is not anchored to the line start.) -/
def isAddedLineWithMarker (line : String) : Bool :=
  (line.data.head? == some '+') && containsCI fixmePat line.data

/-- Output of the shell pipeline `git diff --cached | grep ... || true`,
as a character stream: every matching line followed by a newline. -/
def grepOutput (diff : List String) : List Char :=
  ((diff.filter grepMatchLine).map (fun l => l.data ++ ['\n'])).flatten

/-- Python `str.rstrip()` on the underlying character list: remove trailing
whitespace. -/
def rstripChars (l : List Char) : List Char :=
  (l.reverse.dropWhile Char.isWhitespace).reverse

/-- Python `str.strip()` on the underlying character list: remove leading and
trailing whitespace. -/
def stripChars (l : List Char) : List Char :=
  ((l.dropWhile Char.isWhitespace).reverse.dropWhile Char.isWhitespace).reverse

/-- Python `str.rstrip()`. -/
def rstrip (s : String) : String :=
  ⟨rstripChars s.data⟩

/-- Python `str.split(sep)` for a one-character separator: every occurrence
of the separator splits, and empty chunks are kept: splitting the empty
string yields one empty chunk, splitting a lone separator yields two. -/
def splitOnChar (sep : Char) : List Char → List (List Char)
  | [] => [[]]
  | c :: cs =>
    if c = sep then [] :: splitOnChar sep cs
    else (c :: (splitOnChar sep cs).headD []) :: (splitOnChar sep cs).tail

/-- Python `sep.join(chunks)` for a one-character separator. -/
def joinWith (sep : Char) : List (List Char) → List Char
  | [] => []
  | [x] => x
  | x :: y :: xs => x ++ sep :: joinWith sep (y :: xs)

/-- The branch-name reconstruction in `is_on_branch` (main.py lines 71-73):
strip the reference, split on `/`, drop the first two chunks (`refs`,
`heads`) and rejoin with `/`. -/
def parseBranch (ref_name : String) : String :=
  ⟨joinWith '/' ((splitOnChar '/' (stripChars ref_name.data)).drop 2)⟩

/-- The Python `subprocess.CalledProcessError` as raised by `run_cmd`
(main.py line 59): it carries the exit code, the command, and the captured
stdout/stderr (absent when output was not captured). -/
structure CalledProcessError where
  returncode : Int
  cmd : String
  output : Option String
  stderr : Option String
deriving DecidableEq, Repr

/-- The command runner `run_cmd` (main.py lines 26-63), for a shell-string
command.  The observed outcome of the spawned process is passed in explicitly:
its exit status `returncode` and the text it wrote to stdout/stderr
(`subprocess.run` exposes those only when `capture_output` is true).
On a non-zero status the runner raises `CalledProcessError`; on a zero
status it returns the captured pair with trailing whitespace stripped, or
`(none, none)` when output was not captured. -/
def runCmd (cmd : String) (capture_output : Bool) (returncode : Int)
    (stdout stderr : String) :
    Except CalledProcessError (Option String × Option String) :=
  let pOut : Option String := if capture_output then some stdout else none
  let pErr : Option String := if capture_output then some stderr else none
  if returncode ≠ 0 then
    .error ⟨returncode, cmd, pOut, pErr⟩
  else if capture_output then
    .ok (some (rstrip stdout), some (rstrip stderr))
  else
    .ok (none, none)

/-- The predicate `is_on_branch` (main.py lines 66-73).  Its
`run_cmd("git symbolic-ref HEAD", capture_output=True)` call is modelled by
its result: a raised `CalledProcessError`, or the `(stdout, stderr)` pair.
A raised error is caught and turned into `false`; otherwise the branch name
is reconstructed from the reference and membership in the protected set is
decided by string equality.  (With output captured the first component is
always `some`; `getD ""` is the unreachable default.) -/
def is_on_branch (protectedSet : List String)
    (refCmd : Except CalledProcessError (Option String × Option String)) :
    Bool :=
  match refCmd with
  | .error _ => false
  | .ok (ref_name, _) => protectedSet.contains (parseBranch (ref_name.getD ""))

/-- The predicate `has_fixme_comments` (main.py lines 76-84).  The input is
the outcome of the `run_cmd` call on the shell pipeline
(`git diff --cached`, grep, `|| true`) with output captured: either a raised `CalledProcessError` (which this
function does not catch, so it propagates), or the lines written by
`git diff --cached` (the pipeline filters them through grep; `run_cmd`
right-strips the captured text).  The function returns true iff the
filtered, right-stripped output is a non-empty string. -/
def has_fixme_comments (diffCmd : Except CalledProcessError (List String)) :
    Except CalledProcessError Bool :=
  match diffCmd with
  | .error e => .error e
  | .ok diffLines => .ok (rstrip ⟨grepOutput diffLines⟩ != "")

/-- The protected set built by `main` (main.py line 95):
`frozenset` of `args.branch`, falling back to master and main.
`args.branch` is `None`
when the flag never occurred; a falsy value (None or an empty list) falls
back to the defaults. -/
def protectedOf : Option (List String) → List String
  | none => ["master", "main"]
  | some [] => ["master", "main"]
  | some (b :: bs) => b :: bs

/-- Models the argparse handling of the single repeatable option
`-b` and `--branch` with append action (main.py lines 88-93): each occurrence
appends its value; the result is `none` when the flag never occurred.  The
outer `Option` is parse success — argparse exits with usage text on an
unrecognized token or a flag missing its value. -/
def parseBranchFlags : List String → Option (List String) → Option (Option (List String))
  | [], acc => some acc
  | a :: rest, acc =>
    if a = "--branch" ∨ a = "-b" then
      match rest with
      | [] => none
      | v :: rest2 => parseBranchFlags rest2 (some (acc.getD [] ++ [v]))
    else none

/-- The protected set determined by a command line: argparse, then
the `frozenset` fallback of main.py line 95. -/
def protectedFor (argv : List String) : Option (List String) :=
  (parseBranchFlags argv none).map protectedOf

/-- The body of `main` after argument parsing (main.py lines 95-99),
instrumented: the second component records whether the diff-scanning step
`has_fixme_comments` was invoked (the Python `and` short-circuits, so it runs
only when `is_on_branch` returned true).  A `CalledProcessError` raised by
the diff step is not caught and escapes `main`. -/
def mainRun (branch : Option (List String))
    (refCmd : Except CalledProcessError (Option String × Option String))
    (diffCmd : Except CalledProcessError (List String)) :
    Except CalledProcessError Int × Bool :=
  let protectedSet := protectedOf branch
  if is_on_branch protectedSet refCmd then
    match has_fixme_comments diffCmd with
    | .error e => (.error e, true)
    | .ok true => (.ok 1, true)
    | .ok false => (.ok 0, true)
  else
    (.ok 0, false)

/-- The return value of `main` (main.py lines 87-99): the exit code, or the
uncaught `CalledProcessError`. -/
def hookMain (branch : Option (List String))
    (refCmd : Except CalledProcessError (Option String × Option String))
    (diffCmd : Except CalledProcessError (List String)) :
    Except CalledProcessError Int :=
  (mainRun branch refCmd diffCmd).1

/-- The process exit status: `raise SystemExit(main())` (main.py line 103)
exits with the return value of `main`; an exception escaping `main` makes the
interpreter print a traceback and exit with status 1. -/
def processExit : Except CalledProcessError Int → Int
  | .ok n => n
  | .error _ => 1

/-- The `env` argument that `run_cmd` passes to `subprocess.run`
(main.py line 56): it is `extra_env` itself, not the merged dictionary
computed on lines 51-53.  An environment dictionary is modelled as an
association list. -/
def runCmdEnvArg (extra_env : Option (List (String × String))) :
    Option (List (String × String)) :=
  extra_env

/-- Python `dict.update` semantics used on main.py lines 52-53:
`os.environ.copy()` then `update(extra_env)` — the overlay bindings win,
the other base bindings survive. -/
def dictUpdate (base overlay : List (String × String)) :
    List (String × String) :=
  (base.filter (fun kv => !(overlay.any (fun kv2 => kv2.1 == kv.1)))) ++ overlay

/-- The merged environment computed by `run_cmd` (main.py lines 51-53):
it is built only when `extra_env` is truthy (a non-empty dict), and is
never passed to `subprocess.run`. -/
def runCmdUpdatedEnv (procEnv : List (String × String))
    (extra_env : Option (List (String × String))) :
    Option (List (String × String)) :=
  match extra_env with
  | none => none
  | some e => if e.isEmpty then none else some (dictUpdate procEnv e)

/-- Semantics of the `env` parameter of `subprocess.run`: `None` inherits the
parent process environment, any dictionary (even an empty one) becomes
the entire environment of the child. -/
def childEnv (procEnv : List (String × String)) :
    Option (List (String × String)) → List (String × String)
  | none => procEnv
  | some e => e

/-- A line kept by the grep filter contains a literal plus character. -/
theorem grepAfterPlus_mem_plus {cs : List Char} (h : grepAfterPlus cs = true) :
    '+' ∈ cs := by
  induction cs with
  | nil => simp [grepAfterPlus] at h
  | cons c cs ih =>
    rw [grepAfterPlus] at h
    rcases (Bool.or_eq_true _ _).mp h with h1 | h2
    · rcases (Bool.and_eq_true _ _).mp h1 with ⟨hc, -⟩
      rw [beq_iff_eq] at hc
      rw [← hc]
      exact List.mem_cons_self c cs
    · exact List.mem_cons_of_mem c (ih h2)

/-- A line with no plus character is dropped by the grep filter. -/
theorem grepAfterPlus_eq_false {cs : List Char} (h : '+' ∉ cs) :
    grepAfterPlus cs = false := by
  cases hg : grepAfterPlus cs
  · rfl
  · exact absurd (grepAfterPlus_mem_plus hg) h

/-- Membership in a list survives `dropWhile` when the predicate rejects the
element. -/
theorem mem_dropWhile_of_mem {p : Char → Bool} {a : Char} {l : List Char}
    (h : a ∈ l) (hp : p a = false) : a ∈ l.dropWhile p := by
  induction l with
  | nil => cases h
  | cons c cs ih =>
    rw [List.dropWhile_cons]
    cases hc : p c
    · simpa using h
    · rcases List.mem_cons.mp h with h1 | h2
      · subst h1; rw [hp] at hc; cases hc
      · simpa using ih h2

/-- Right-stripping cannot empty a list that holds a non-whitespace
character. -/
theorem rstripChars_ne_nil_of_mem {a : Char} {l : List Char}
    (h : a ∈ l) (hw : a.isWhitespace = false) : rstripChars l ≠ [] := by
  intro hnil
  rw [rstripChars, List.reverse_eq_nil_iff] at hnil
  have hmem : a ∈ l.reverse.dropWhile Char.isWhitespace :=
    mem_dropWhile_of_mem (List.mem_reverse.mpr h) hw
  rw [hnil] at hmem
  cases hmem

/-- `has_fixme_comments` on a captured diff is exactly: some line matches the
grep filter.  (If no line matches, grep writes nothing and the stripped
capture is the empty string; if a line matches, its plus sign survives the
right-strip, so the capture is non-empty.) -/
theorem has_fixme_comments_ok (diff : List String) :
    has_fixme_comments (.ok diff) = .ok (diff.any grepMatchLine) := by
  rw [has_fixme_comments]
  congr 1
  cases hd : diff.any grepMatchLine
  · have hfil : diff.filter grepMatchLine = [] := by
      rw [List.filter_eq_nil_iff]
      intro a ha
      simp only [List.any_eq_false] at hd
      simp [hd a ha]
    rw [show grepOutput diff = ((diff.filter grepMatchLine).map
          (fun l => l.data ++ ['\n'])).flatten from rfl, hfil]
    decide
  · obtain ⟨l, hl, hm⟩ := List.any_eq_true.mp hd
    have hplus : '+' ∈ l.data := grepAfterPlus_mem_plus hm
    have hmemflat : '+' ∈ grepOutput diff := by
      rw [grepOutput]
      refine List.mem_flatten.mpr ⟨l.data ++ ['\n'], ?_, List.mem_append_left _ hplus⟩
      exact List.mem_map_of_mem _ (List.mem_filter.mpr ⟨hl, hm⟩)
    have hne : rstripChars (grepOutput diff) ≠ [] :=
      rstripChars_ne_nil_of_mem hmemflat (by decide)
    simp only [bne_iff_ne, ne_eq, decide_eq_true_eq]
    intro heq
    exact hne (by simpa using congrArg String.data heq)

/-- On a protected branch with a healthy diff step, `main` returns 1 exactly
when some line survives the grep filter, and the diff step is invoked. -/
theorem mainRun_on_branch (b : Option (List String))
    (refCmd : Except CalledProcessError (Option String × Option String))
    (diff : List String)
    (hbr : is_on_branch (protectedOf b) refCmd = true) :
    mainRun b refCmd (.ok diff)
      = (.ok (if diff.any grepMatchLine then 1 else 0), true) := by
  simp only [mainRun, hbr, if_true, has_fixme_comments_ok]
  cases diff.any grepMatchLine <;> simp

/-- Off a protected branch, `main` returns 0 and never reaches the diff
step, whatever that step would have produced. -/
theorem mainRun_off_branch (b : Option (List String))
    (refCmd : Except CalledProcessError (Option String × Option String))
    (d : Except CalledProcessError (List String))
    (hbr : is_on_branch (protectedOf b) refCmd = false) :
    mainRun b refCmd d = (.ok 0, false) := by
  simp [mainRun, hbr]

/-- On a protected branch, an error raised by the diff step escapes
`main` untouched. -/
theorem mainRun_diff_error (b : Option (List String))
    (refCmd : Except CalledProcessError (Option String × Option String))
    (e : CalledProcessError)
    (hbr : is_on_branch (protectedOf b) refCmd = true) :
    mainRun b refCmd (.error e) = (.error e, true) := by
  simp [mainRun, hbr, has_fixme_comments]

/-- Splitting never produces an empty chunk list. -/
theorem splitOnChar_ne_nil (sep : Char) (l : List Char) :
    splitOnChar sep l ≠ [] := by
  cases l with
  | nil => simp [splitOnChar]
  | cons c cs =>
    rw [splitOnChar]
    split <;> simp

/-- Joining with the separator undoes splitting on it. -/
theorem joinWith_splitOnChar (sep : Char) (l : List Char) :
    joinWith sep (splitOnChar sep l) = l := by
  induction l with
  | nil => rfl
  | cons c cs ih =>
    rcases hsplit : splitOnChar sep cs with _ | ⟨h, t⟩
    · exact absurd hsplit (splitOnChar_ne_nil sep cs)
    · rw [hsplit] at ih
      rw [splitOnChar, hsplit]
      by_cases hc : c = sep
      · rw [if_pos hc]
        rw [show joinWith sep ([] :: h :: t) = [] ++ sep :: joinWith sep (h :: t)
              from rfl]
        rw [List.nil_append, ih, hc]
      · rw [if_neg hc]
        simp only [List.headD_cons, List.tail_cons]
        cases t with
        | nil =>
          simp only [joinWith] at ih ⊢
          rw [ih]
        | cons t0 ts =>
          simp only [joinWith] at ih ⊢
          rw [List.cons_append, ih]

/-- `dropWhile` keeps a list whose head the predicate rejects, even with a
tail appended. -/
theorem dropWhile_cons_append (p : Char → Bool) (a : Char) (t m : List Char)
    (ha : p a = false) : ((a :: t) ++ m).dropWhile p = (a :: t) ++ m := by
  rw [List.cons_append, List.dropWhile_cons]
  simp [ha]

/-- `dropWhile` keeps an append of two lists it already keeps. -/
theorem dropWhile_append_self {p : Char → Bool} {l m : List Char}
    (hl : l.dropWhile p = l) (hm : m.dropWhile p = m) :
    (l ++ m).dropWhile p = l ++ m := by
  cases l with
  | nil => simpa using hm
  | cons a t =>
    cases ha : p a
    · exact dropWhile_cons_append p a t m ha
    · exfalso
      rw [List.dropWhile_cons, if_pos ha] at hl
      have hsub : List.Sublist (t.dropWhile p) t := List.dropWhile_sublist _
      rw [hl] at hsub
      have := hsub.length_le
      simp at this

/-- Stripping a full symbolic reference leaves it intact when the embedded
branch name carries no trailing whitespace (the leading `r` of `refs` is
never whitespace). -/
theorem stripChars_refs_heads (n : List Char)
    (h : n.reverse.dropWhile Char.isWhitespace = n.reverse) :
    stripChars ("refs/heads/".data ++ n) = "refs/heads/".data ++ n := by
  rw [stripChars]
  rw [show "refs/heads/".data = 'r' :: "efs/heads/".data from rfl]
  rw [dropWhile_cons_append Char.isWhitespace 'r' "efs/heads/".data n (by decide)]
  rw [List.reverse_append]
  rw [dropWhile_append_self h (by decide)]
  rw [List.reverse_append, List.reverse_reverse, List.reverse_reverse]

/-- The branch-name reconstruction is the identity on `refs/heads/<name>`
for a name with no trailing whitespace, slashes included. -/
theorem parseBranch_refs_heads (name : String)
    (h : rstripChars name.data = name.data) :
    parseBranch ("refs/heads/" ++ name) = name := by
  have hrev : name.data.reverse.dropWhile Char.isWhitespace = name.data.reverse := by
    have h2 := congrArg List.reverse h
    rw [rstripChars, List.reverse_reverse] at h2
    exact h2
  rw [parseBranch]
  rw [show ("refs/heads/" ++ name).data = "refs/heads/".data ++ name.data from
        String.data_append "refs/heads/" name]
  rw [stripChars_refs_heads name.data hrev]
  rw [show splitOnChar '/' ("refs/heads/".data ++ name.data)
        = "refs".data :: "heads".data :: splitOnChar '/' name.data from rfl]
  rw [show ("refs".data :: "heads".data :: splitOnChar '/' name.data).drop 2
        = splitOnChar '/' name.data from rfl]
  rw [joinWith_splitOnChar]

/-- An added line containing the marker (line starts with `+`, marker
anywhere on it) is kept by the grep filter. -/
theorem grepMatchLine_of_added {l : String}
    (h : isAddedLineWithMarker l = true) : grepMatchLine l = true := by
  rw [isAddedLineWithMarker, Bool.and_eq_true] at h
  obtain ⟨hhead, hcont⟩ := h
  rw [beq_iff_eq] at hhead
  rw [grepMatchLine]
  rcases hdata : l.data with _ | ⟨c, cs⟩
  · rw [hdata] at hhead; cases hhead
  · rw [hdata] at hhead hcont
    have hc : c = '+' := by simpa using hhead
    subst hc
    rw [containsCI] at hcont
    have hpre : isPrefixCI fixmePat ('+' :: cs) = false := rfl
    rw [hpre, Bool.false_or] at hcont
    rw [grepAfterPlus, hcont]
    simp

/-- Lift the per-line fact to whole diffs. -/
theorem any_grep_of_any_added {diff : List String}
    (h : diff.any isAddedLineWithMarker = true) :
    diff.any grepMatchLine = true := by
  obtain ⟨l, hl, hm⟩ := List.any_eq_true.mp h
  exact List.any_eq_true.mpr ⟨l, hl, grepMatchLine_of_added hm⟩

/-- C1 (counterexample): on the protected branch `main`, a staged diff whose
only line is the removed line `-a+b FIXME` — so no added line contains the
marker — still makes `main` return 1, because the grep pattern is not
anchored to the line start.  The claim demands exit code 0 here. -/
theorem c1_unanchored_grep_counterexample :
    hookMain none (.ok (some "refs/heads/main", some "")) (.ok ["-a+b FIXME"])
      = .ok 1
    ∧ (["-a+b FIXME"].any isAddedLineWithMarker) = false :=
  ⟨rfl, rfl⟩

/-- C1 (amended): on a protected branch with a healthy diff step, `main`
returns 1 iff some line of the staged diff contains a `+` followed later on
the same line by the marker in any casing; in particular any added line
containing the marker forces 1, and if no line matches the filter the
result is 0. -/
theorem c1_block_iff_plus_marker (b : Option (List String))
    (refCmd : Except CalledProcessError (Option String × Option String))
    (diff : List String)
    (hbr : is_on_branch (protectedOf b) refCmd = true) :
    (hookMain b refCmd (.ok diff) = .ok 1 ↔ diff.any grepMatchLine = true)
    ∧ (diff.any isAddedLineWithMarker = true →
        hookMain b refCmd (.ok diff) = .ok 1)
    ∧ (diff.any grepMatchLine = false →
        hookMain b refCmd (.ok diff) = .ok 0) := by
  have hmain : hookMain b refCmd (.ok diff)
      = .ok (if diff.any grepMatchLine then 1 else 0) := by
    rw [hookMain, mainRun_on_branch b refCmd diff hbr]
  refine ⟨?_, ?_, ?_⟩
  · rw [hmain]
    cases diff.any grepMatchLine <;> simp
  · intro ha
    rw [hmain, any_grep_of_any_added ha]
    simp
  · intro h
    rw [hmain, h]
    simp

/-- C1 (witness): branch `master` is protected by default, and an added
line carrying the marker makes `main` return 1. -/
theorem c1_block_iff_plus_marker_witness :
    hookMain none (.ok (some "refs/heads/master", some ""))
      (.ok ["+    code() # FIXME: handle edge case"]) = .ok 1 :=
  (c1_block_iff_plus_marker none (.ok (some "refs/heads/master", some ""))
    ["+    code() # FIXME: handle edge case"] (by decide)).2.1 (by decide)

/-- C2 (counterexample): on the protected branch `master`, a staged diff
whose only line is the removed line `-x = y + 1 # fixme` (it starts with
`-` and is the only place the marker occurs) causes a block, contradicting
the claim that removed lines never trigger one: the `+` of `y + 1` together
with the later `fixme` matches the unanchored grep pattern. -/
theorem c2_removed_line_blocks_counterexample :
    hookMain none (.ok (some "refs/heads/master", some ""))
      (.ok ["-x = y + 1 # fixme"]) = .ok 1
    ∧ ("-x = y + 1 # fixme".data.head? == some '-') = true
    ∧ (["-x = y + 1 # fixme"].any isAddedLineWithMarker) = false :=
  ⟨rfl, rfl, rfl⟩

/-- C2 (amended): the block triggers only when some diff line contains a
`+` character followed later on that line by the marker; a line containing
no `+` at all — in particular a removed line whose content has no `+`
before the marker — never contributes, and when no line matches the filter
the exit code is 0. -/
theorem c2_block_only_with_plus (b : Option (List String))
    (refCmd : Except CalledProcessError (Option String × Option String))
    (diff : List String)
    (hbr : is_on_branch (protectedOf b) refCmd = true) :
    (hookMain b refCmd (.ok diff) = .ok 1 → diff.any grepMatchLine = true)
    ∧ ((∀ l ∈ diff, '+' ∉ l.data) → hookMain b refCmd (.ok diff) = .ok 0)
    ∧ (∀ l : String, '+' ∉ l.data → grepMatchLine l = false) := by
  have hmain : hookMain b refCmd (.ok diff)
      = .ok (if diff.any grepMatchLine then 1 else 0) := by
    rw [hookMain, mainRun_on_branch b refCmd diff hbr]
  refine ⟨?_, ?_, ?_⟩
  · intro h1
    cases hany : diff.any grepMatchLine
    · rw [hmain, hany] at h1
      simp at h1
    · rfl
  · intro hplus
    have hany : diff.any grepMatchLine = false := by
      rw [List.any_eq_false]
      intro l hl
      rw [grepMatchLine, grepAfterPlus_eq_false (hplus l hl)]
      simp
    rw [hmain, hany]
    simp
  · intro l hl
    rw [grepMatchLine]
    exact grepAfterPlus_eq_false hl

/-- C2 (witness): on `main`, a diff whose lines contain no `+` at all (a
removal carrying the marker and a context line) leaves the exit code 0. -/
theorem c2_block_only_with_plus_witness :
    hookMain none (.ok (some "refs/heads/main", some ""))
      (.ok ["- fixme was here", " context"]) = .ok 0 :=
  (c2_block_only_with_plus none (.ok (some "refs/heads/main", some ""))
    ["- fixme was here", " context"] (by decide)).2.1 (by decide)

/-- C3: off the protected set, `main` returns 0, the diff-scanning step is
never invoked, and the result is independent of the staged content. -/
theorem c3_unprotected_branch_allows (b : Option (List String))
    (refCmd : Except CalledProcessError (Option String × Option String))
    (hbr : is_on_branch (protectedOf b) refCmd = false) :
    (∀ d, mainRun b refCmd d = (.ok 0, false))
    ∧ ∀ d1 d2, mainRun b refCmd d1 = mainRun b refCmd d2 := by
  have h : ∀ d, mainRun b refCmd d = (.ok 0, false) :=
    fun d => mainRun_off_branch b refCmd d hbr
  exact ⟨h, fun d1 d2 => (h d1).trans (h d2).symm⟩

/-- C3 (witness): on the unprotected branch `feature/x`, a diff full of
markers is never scanned and the exit code is 0. -/
theorem c3_unprotected_branch_allows_witness :
    mainRun none (.ok (some "refs/heads/feature/x", some ""))
      (.ok ["+FIXME everywhere"]) = (.ok 0, false) :=
  (c3_unprotected_branch_allows none
    (.ok (some "refs/heads/feature/x", some "")) (by decide)).1
    (.ok ["+FIXME everywhere"])

/-- C4: only a failed branch-reference lookup is swallowed (the run still
exits 0); an error raised by the diff-and-filter step escapes `main`
unchanged and the process exits non-zero, never a silent 0. -/
theorem c4_only_ref_failure_swallowed (b : Option (List String))
    (refCmd : Except CalledProcessError (Option String × Option String))
    (e : CalledProcessError)
    (hbr : is_on_branch (protectedOf b) refCmd = true) :
    hookMain b refCmd (.error e) = .error e
    ∧ processExit (hookMain b refCmd (.error e)) ≠ 0
    ∧ ∀ (e2 : CalledProcessError) (d : Except CalledProcessError (List String)),
        hookMain b (.error e2) d = .ok 0 := by
  have h1 : hookMain b refCmd (.error e) = .error e := by
    rw [hookMain, mainRun_diff_error b refCmd e hbr]
  refine ⟨h1, ?_, ?_⟩
  · have hp : processExit (.error e) = 1 := rfl
    rw [h1, hp]
    decide
  · intro e2 d
    rw [hookMain, mainRun_off_branch b (.error e2) d rfl]

/-- C4 (witness): on protected `main`, a concrete diff-step failure is
returned as the error itself. -/
theorem c4_only_ref_failure_swallowed_witness :
    hookMain none (.ok (some "refs/heads/main", some ""))
      (.error ⟨127, "git diff", none, none⟩)
      = .error ⟨127, "git diff", none, none⟩ :=
  (c4_only_ref_failure_swallowed none (.ok (some "refs/heads/main", some ""))
    ⟨127, "git diff", none, none⟩ (by decide)).1

/-- C5: whatever error the branch-reference lookup raised, `is_on_branch`
returns false instead of propagating it, and the whole run exits 0. -/
theorem c5_ref_failure_allows (protectedSet : List String)
    (e : CalledProcessError) (b : Option (List String))
    (d : Except CalledProcessError (List String)) :
    is_on_branch protectedSet (.error e) = false
    ∧ hookMain b (.error e) d = .ok 0
    ∧ processExit (hookMain b (.error e) d) = 0 := by
  have h : hookMain b (.error e) d = .ok 0 := by
    rw [hookMain, mainRun_off_branch b (.error e) d rfl]
  exact ⟨rfl, h, by rw [h]; rfl⟩

/-- C6: with no branch flags the protected set is exactly master and main;
with `--branch foo --branch bar` it is exactly foo and bar, the defaults
dropped. -/
theorem c6_protected_set_defaults :
    (protectedFor [] = some ["master", "main"]
      ∧ ∀ x : String, x ∈ protectedOf none ↔ x = "master" ∨ x = "main")
    ∧ (protectedFor ["--branch", "foo", "--branch", "bar"]
        = some ["foo", "bar"]
      ∧ ∀ x : String,
          x ∈ protectedOf (some ["foo", "bar"]) ↔ x = "foo" ∨ x = "bar") := by
  refine ⟨⟨rfl, ?_⟩, ⟨rfl, ?_⟩⟩ <;> intro x <;> simp [protectedOf]

/-- C7: for a reference `refs/heads/<name>` (name free of trailing
whitespace, slashes allowed), the reconstruction returns `<name>` itself
and `is_on_branch` answers exactly membership of that name in the
protected set. -/
theorem c7_branch_reconstruction (name : String) (protectedSet : List String)
    (err : Option String)
    (h : rstripChars name.data = name.data) :
    parseBranch ("refs/heads/" ++ name) = name
    ∧ is_on_branch protectedSet (.ok (some ("refs/heads/" ++ name), err))
        = protectedSet.contains name := by
  have hp : parseBranch ("refs/heads/" ++ name) = name :=
    parseBranch_refs_heads name h
  refine ⟨hp, ?_⟩
  rw [is_on_branch]
  simp only [Option.getD_some]
  rw [hp]

/-- C7 (witness): the nested branch name `release/2024-01` is reconstructed
exactly and found in a protected set that lists it. -/
theorem c7_branch_reconstruction_witness :
    is_on_branch ["release/2024-01"]
      (.ok (some ("refs/heads/" ++ "release/2024-01"), some ""))
      = (["release/2024-01"].contains "release/2024-01") :=
  (c7_branch_reconstruction "release/2024-01" ["release/2024-01"] (some "")
    (by decide)).2

/-- C8: `run_cmd` raises `CalledProcessError` exactly on a non-zero exit
status, carrying the status, the command and the captured output; on a zero
status it returns the right-stripped captured pair, or an empty pair when
capture was off. -/
theorem c8_runCmd_spec (cmd : String) (capture_output : Bool) (rc : Int)
    (out err : String) :
    ((∃ e : CalledProcessError,
        runCmd cmd capture_output rc out err = .error e) ↔ rc ≠ 0)
    ∧ (rc ≠ 0 →
        runCmd cmd capture_output rc out err
          = .error ⟨rc, cmd, if capture_output then some out else none,
              if capture_output then some err else none⟩)
    ∧ (rc = 0 → capture_output = true →
        runCmd cmd capture_output rc out err
          = .ok (some (rstrip out), some (rstrip err)))
    ∧ (rc = 0 → capture_output = false →
        runCmd cmd capture_output rc out err = .ok (none, none)) := by
  by_cases h : rc = 0 <;> cases capture_output <;>
    simp [runCmd, h]

/-- C8 (witness): a zero exit with capture returns the stripped pair; a
non-zero exit raises the error with the captured fields. -/
theorem c8_runCmd_spec_witness :
    runCmd "git status" true 0 "out \n" "" = .ok (some "out", some "")
    ∧ runCmd "git status" true 2 "o" "e"
        = .error ⟨2, "git status", some "o", some "e"⟩ := by
  constructor
  · have h := (c8_runCmd_spec "git status" true 0 "out \n" "").2.2.1 rfl rfl
    rw [h]
    rfl
  · have h := (c8_runCmd_spec "git status" true 2 "o" "e").2.1 (by decide)
    rw [h]
    rfl

/-- C9: a non-empty extra environment is handed to the subprocess as its
entire environment — the same whatever the parent environment is — while
the merged dictionary is computed and then never passed (the environment
actually passed differs from the merge in general). -/
theorem c9_extra_env_replaces (procEnv e : List (String × String))
    (h : e ≠ []) :
    childEnv procEnv (runCmdEnvArg (some e)) = e
    ∧ runCmdUpdatedEnv procEnv (some e) = some (dictUpdate procEnv e)
    ∧ (∀ q : List (String × String), childEnv q (runCmdEnvArg (some e)) = e)
    ∧ ∃ (pe ee : List (String × String)), ee ≠ []
        ∧ childEnv pe (runCmdEnvArg (some ee)) ≠ dictUpdate pe ee := by
  refine ⟨rfl, ?_, fun q => rfl, ?_⟩
  · rw [runCmdUpdatedEnv]
    cases e with
    | nil => exact absurd rfl h
    | cons kv kvs => simp
  · exact ⟨[("PATH", "/usr/bin")], [("A", "1")], by decide, by decide⟩

/-- C9 (witness): with parent environment HOME and override A, the child
environment is exactly the override. -/
theorem c9_extra_env_replaces_witness :
    childEnv [("HOME", "/root")] (runCmdEnvArg (some [("A", "1")]))
      = [("A", "1")] :=
  (c9_extra_env_replaces [("HOME", "/root")] [("A", "1")] (by decide)).1

/-- C10: an empty extra-environment dictionary skips the merge (it is
falsy) yet is still passed as the subprocess environment, so the child
inherits nothing; only the `None` default inherits the parent
environment. -/
theorem c10_empty_extra_env (procEnv : List (String × String)) :
    runCmdUpdatedEnv procEnv (some []) = none
    ∧ childEnv procEnv (runCmdEnvArg (some [])) = []
    ∧ childEnv procEnv (runCmdEnvArg none) = procEnv :=
  ⟨rfl, rfl, rfl⟩
